import Mathlib

/-!
# Verification of the st-gcp provider core

A shallow embedding of the two pieces of logic of the
`terraform-provider-st-gcp` repository:

* the ACME EAB credential provisioning path of `gcp/resource_acme_eab.go`
  (request-body construction for create and rotate, the retry loop around the
  signed POST with its substring-based error classifier, status handling and
  response decoding), and
* the backend-service tag decoding, filter matching and paged scanning of the
  `load_balancer_backend_services` data source.

Go strings are modelled as `List Char` (the inputs of interest are ASCII, where
Go's byte positions and code points coincide); Go byte slices as `List Nat`;
Go panics and other abnormal terminations as `Option`/dedicated result types.
-/

namespace StGcp

/-- Go strings, modelled as character lists. -/
abbrev Str := List Char

/-- A decoded tag set: association list from tag key to tag value.
The decoder below keeps keys unique (Go map semantics). -/
abbrev TagMap := List (Str × Str)

/-- Embeds Go `strings.Split(s, sep)` for a single-character separator:
splits around every occurrence of `sep`; the empty string yields `[""]`. -/
def splitOnChar (sep : Char) : Str → List Str
  | [] => [[]]
  | c :: rest =>
    if c = sep then
      [] :: splitOnChar sep rest
    else
      match splitOnChar sep rest with
      | [] => [[c]]
      | h :: t => (c :: h) :: t

/-- Embeds Go `strings.Join(parts, sep)` for a single-character separator. -/
def joinChar (sep : Char) : List Str → Str
  | [] => []
  | [x] => x
  | x :: y :: t => x ++ sep :: joinChar sep (y :: t)

theorem splitOnChar_ne_nil (sep : Char) (s : Str) : splitOnChar sep s ≠ [] := by
  cases s with
  | nil => simp [splitOnChar]
  | cons c rest =>
    simp only [splitOnChar]
    split
    · simp
    · split <;> simp

theorem splitOnChar_of_not_mem (sep : Char) (s : Str) (h : sep ∉ s) :
    splitOnChar sep s = [s] := by
  induction s with
  | nil => rfl
  | cons c rest ih =>
    have hc : ¬ c = sep := fun hcs => h (hcs ▸ List.mem_cons_self c rest)
    have hrest : sep ∉ rest := fun hm => h (List.mem_cons_of_mem c hm)
    simp only [splitOnChar, if_neg hc, ih hrest]

theorem splitOnChar_append (sep : Char) (xs ys : Str) (h : sep ∉ xs) :
    splitOnChar sep (xs ++ sep :: ys) = xs :: splitOnChar sep ys := by
  induction xs with
  | nil => simp [splitOnChar]
  | cons c rest ih =>
    have hc : ¬ c = sep := fun hcs => h (hcs ▸ List.mem_cons_self c rest)
    have hrest : sep ∉ rest := fun hm => h (List.mem_cons_of_mem c hm)
    simp only [List.cons_append, splitOnChar, if_neg hc, List.append_eq, ih hrest]

theorem splitOnChar_head (sep : Char) (s : Str) :
    ∃ t, splitOnChar sep s = s.takeWhile (fun c => c != sep) :: t := by
  induction s with
  | nil => exact ⟨[], rfl⟩
  | cons c rest ih =>
    by_cases hc : c = sep
    · refine ⟨splitOnChar sep rest, ?_⟩
      simp [splitOnChar, hc, List.takeWhile]
    · obtain ⟨t, ht⟩ := ih
      refine ⟨t, ?_⟩
      simp only [splitOnChar, if_neg hc, ht, List.takeWhile]
      have : (c != sep) = true := bne_iff_ne.mpr hc
      simp [this]

/-- Embeds `strings.Join` applied to a list with no separator inside the parts:
splitting recovers the parts. -/
theorem splitOnChar_joinChar (sep : Char) (parts : List Str)
    (hne : parts ≠ []) (h : ∀ p ∈ parts, sep ∉ p) :
    splitOnChar sep (joinChar sep parts) = parts := by
  induction parts with
  | nil => exact absurd rfl hne
  | cons x t ih =>
    cases t with
    | nil =>
      simp only [joinChar]
      exact splitOnChar_of_not_mem sep x (h x (List.mem_cons_self x []))
    | cons y t' =>
      simp only [joinChar]
      rw [splitOnChar_append sep x (joinChar sep (y :: t'))
        (h x (List.mem_cons_self x (y :: t')))]
      rw [ih (by simp) (fun p hp => h p (List.mem_cons_of_mem x hp))]

/-! ## Tag decoding (runBackendServices, data source)

The Go source decodes a backend-service description into tags with

```
tags := strings.Split(backendService.Description, "|")
for _, tag := range tags {
    t := strings.Split(tag, ":")
    slbTags[t[0]] = types.StringValue(t[1])
}
```

guarded by `if backendService.Description != ""`.
-/

/-- Embeds the per-entry step `t := strings.Split(tag, ":"); (t[0], t[1])`.
`none` models the Go runtime panic (index out of range on `t[1]`) when the
entry contains no `:`.  Note `t[1]` is the segment between the first and the
second `:` — any later segments are dropped. -/
def splitTag (tag : Str) : Option (Str × Str) :=
  match splitOnChar ':' tag with
  | k :: v :: _ => some (k, v)
  | _ => none

/-- Embeds the Go map assignment `slbTags[k] = v`: replaces an existing
binding of `k`, otherwise appends a new one. -/
def insertTag (m : TagMap) (k v : Str) : TagMap :=
  if m.any (fun p => p.1 == k) then
    m.map (fun p => if p.1 == k then (k, v) else p)
  else
    m ++ [(k, v)]

/-- Embeds the decode loop over `strings.Split(desc, "|")` for a non-empty
description.  `none` models the panic on an entry with no `:`. -/
def decodeTags (desc : Str) : Option TagMap :=
  (splitOnChar '|' desc).foldlM
    (fun m tag => (splitTag tag).map (fun kv => insertTag m kv.1 kv.2)) []

/-- Embeds the full description-to-tags derivation including the
`if backendService.Description != ""` guard: an empty description yields an
empty tag map (the `slbTags` Go map stays empty and no decode runs). -/
def descTags (desc : Str) : Option TagMap :=
  if desc = [] then some [] else decodeTags desc

/-- Modelled from the spec: `TagCodec.Encode` (§4.3) — the source repository
contains no encoder (descriptions are only ever read back from GCP), so the
encoder is taken from the spec's words: produce `"k1:v1|k2:v2|..."` joining
entries with `|`, each entry joining key and value with `:`. -/
def encodeTags (m : TagMap) : Str :=
  joinChar '|' (m.map (fun kv => kv.1 ++ ':' :: kv.2))

/-! ## Filter matching and the paged scan (runBackendServices) -/

/-- A raw backend-service record as delivered by the paging capability. -/
structure BackendService where
  id : Nat
  name : String
  description : Str
deriving DecidableEq

/-- A result item of the scan: `lbBackendServicesItemModel` (ID and decoded
tags). -/
structure ServiceItem where
  id : Nat
  tags : TagMap
deriving DecidableEq

/-- The caller-supplied filter: `plan.Name` and `plan.Tags`, where a null or
unknown attribute is an absent constraint (`none`). -/
structure Filter where
  nameFilter : Option String
  tagFilter : Option TagMap

/-- Embeds the name check: `plan.Name.ValueString() != backendService.Name`
causes `continue`; an absent name filter is unconstrained. -/
def matchesName (f : Filter) (name : String) : Bool :=
  match f.nameFilter with
  | none => true
  | some n => n == name

/-- Embeds the tag check loop: every key of the filter's tag map must be bound
in the record's decoded tag map to an equal value, else `matched = false`. -/
def matchesTags (f : Filter) (recTags : TagMap) : Bool :=
  match f.tagFilter with
  | none => true
  | some ts =>
    ts.all (fun p =>
      match recTags.lookup p.1 with
      | some v => v == p.2
      | none => false)

/-- The record-level filter decision of `runBackendServices`: the record
survives both `continue` checks. -/
def matchesFilter (f : Filter) (name : String) (recTags : TagMap) : Bool :=
  matchesName f name && matchesTags f recTags

/-- Embeds one iteration of the per-record loop body: decode the description
(`none` models the decode panic), build the item, apply both `continue`
checks, and append on a match.  The decode runs before either check, exactly
as in the source. -/
def processService (f : Filter) (acc : List ServiceItem) (svc : BackendService) :
    Option (List ServiceItem) :=
  match descTags svc.description with
  | none => none
  | some tags =>
    if matchesFilter f svc.name tags then
      some (acc ++ [⟨svc.id, tags⟩])
    else
      some acc

/-- Embeds the whole paged scan: `responseByList.Pages` invokes the callback
once per page, in order; `state.Items` accumulates across pages. -/
def scanPages (f : Filter) (pages : List (List BackendService)) :
    Option (List ServiceItem) :=
  pages.foldlM (fun acc page => page.foldlM (processService f) acc) []

/-- The per-record match decision, phrased over the record itself. -/
def svcMatches (f : Filter) (svc : BackendService) : Bool :=
  matchesFilter f svc.name ((descTags svc.description).getD [])

/-- The item built from a record whose description decodes. -/
def svcItem (svc : BackendService) : ServiceItem :=
  ⟨svc.id, (descTags svc.description).getD []⟩

/-! ## The retry classifier and the backoff loop (createEabCred) -/

/-- Substring containment on character lists: `hasSubstr sub s` holds iff
`sub` occurs contiguously inside `s`.  Embeds Go `strings.Contains(s, sub)`. -/
def hasSubstr (sub : Str) : Str → Bool
  | [] => sub.isEmpty
  | c :: rest => sub.isPrefixOf (c :: rest) || hasSubstr sub rest

theorem hasSubstr_iff_infix (sub s : Str) : hasSubstr sub s = true ↔ sub <:+: s := by
  induction s with
  | nil =>
    simp only [hasSubstr, List.isEmpty_iff, List.infix_nil]
  | cons c rest ih =>
    simp only [hasSubstr, Bool.or_eq_true, List.infix_cons_iff, ih,
      List.isPrefixOf_iff_prefix]

/-- Embeds the error classification of `requestFunc` (resource_acme_eab.go):
an error is retried iff its message contains one of the four literal
substrings; `strings.Contains` is case-sensitive. -/
def isRetryable (msg : String) : Bool :=
  hasSubstr "timeout".data msg.data || hasSubstr " 500 ".data msg.data ||
    hasSubstr " 504 ".data msg.data || hasSubstr "DNS".data msg.data

/-- The value `requestFunc` hands to `backoff.Retry` for one attempt, as seen
by the retry loop: `nil` (success), a plain error (retried), or a
`backoff.PermanentError` (stops the loop). -/
inductive ReqResult where
  | ok
  | retryableErr (msg : String)
  | permanentErr (msg : String)
deriving DecidableEq

/-- Embeds the `err != nil` branch of `requestFunc` (the classification at
lines 195–207): a retryable message is returned bare, anything else is
wrapped in `backoff.PermanentError`. -/
def classifyTransportErr (msg : String) : ReqResult :=
  if isRetryable msg then .retryableErr msg else .permanentErr msg

/-- One HTTP attempt as the model sees it: either the round trip completed
with a status and body, or the transport failed with an error message. -/
inductive AttemptOutcome where
  | completed (status : Nat) (body : String)
  | transportErr (msg : String)

/-- What `requestFunc` returns to `backoff.Retry` on each outcome, assuming
the classification branch is reached: a completed round trip returns `nil`
regardless of its status (the status is only examined after the loop). -/
def requestFuncClassified : AttemptOutcome → ReqResult
  | .completed _ _ => .ok
  | .transportErr m => classifyTransportErr m

/-- Embeds `backoff.Retry` over the successive attempt results: `nil` ends
the loop with success, `backoff.PermanentError` ends it at once with the
wrapped error, a plain error sleeps and retries.  Returns the number of
attempts made together with the loop's outcome (`none` = the supplied trace
ran out before the loop stopped). -/
def retryRun : List ReqResult → Nat × Option (Except String Unit)
  | [] => (0, none)
  | .ok :: _ => (1, some (.ok ()))
  | .permanentErr m :: _ => (1, some (.error m))
  | .retryableErr _ :: rest => ((retryRun rest).1 + 1, (retryRun rest).2)

/-! ## Status handling and response decoding (createEabCred, after the loop) -/

/-- Embeds the endpoint construction of lines 176–178:
`fmt.Sprintf("https://publicca.googleapis.com/v1beta1/projects/%s/...", cred.ProjectID)`. -/
def eabEndpoint (project : String) : String :=
  "https://publicca.googleapis.com/v1beta1/projects/" ++ project ++
    "/locations/global/externalAccountKeys"

/-- Embeds the non-200 error construction of line 219:
`fmt.Errorf("url:" + api + ", error:" + string(body))`. -/
def respErrorMsg (api : String) (body : String) : String :=
  "url:" ++ api ++ ", error:" ++ body

/-- The read failure `io.ReadAll` produces on a response body that has
already been closed: `fmt.Errorf("failed to read response body: %v", err)`
wrapping Go's `http.ErrBodyReadAfterClose`. -/
def readClosedErrMsg : String :=
  "failed to read response body: http: read on closed response body"

/-- Embeds `io.ReadAll(resp.Body)` at lines 214–217 as executed: the
deferred `resp.Body.Close()` inside `requestFunc` already closed the body
when the successful attempt returned, so reading any non-empty body fails
with `http.ErrBodyReadAfterClose`; only a zero-length body (`http.NoBody`,
whose reads return plain EOF) still yields a successful, empty read. -/
def readClosedBody (body : String) : Except String String :=
  if body = "" then .ok "" else .error readClosedErrMsg

/-- Embeds the non-200 check at lines 218–220,
`if resp.StatusCode != http.StatusOK ...`.  In the program as executed this
point is reached only when the read of the already-closed body succeeded,
i.e. only for a zero-length body (see `readClosedBody`); `body` here is the
byte slice that read returned. -/
def checkStatus (api : String) (status : Nat) (body : String) : Except String Unit :=
  if status ≠ 200 then .error (respErrorMsg api body) else .ok ()

/-! ## Standard base64 (encoding/base64 StdEncoding) -/

/-- The standard base64 alphabet. -/
def b64Alphabet : Str :=
  "ABCDEFGHIJKLMNOPQRSTUVWXYZabcdefghijklmnopqrstuvwxyz0123456789+/".data

/-- The alphabet character for a 6-bit value. -/
def b64Char (n : Nat) : Char := b64Alphabet.getD n 'A'

/-- The 6-bit value of an alphabet character, `none` outside the alphabet. -/
def b64Val (c : Char) : Option Nat := b64Alphabet.findIdx? (fun x => x == c)

/-- Embeds `base64.StdEncoding.EncodeToString` on a byte sequence: 3-byte
groups become 4 characters; a trailing group of 1 or 2 bytes is padded with
`=`. -/
def b64encodeBytes : List Nat → Str
  | a :: b :: c :: rest =>
    b64Char (a / 4) :: b64Char (a % 4 * 16 + b / 16) ::
      b64Char (b % 16 * 4 + c / 64) :: b64Char (c % 64) :: b64encodeBytes rest
  | [a, b] => [b64Char (a / 4), b64Char (a % 4 * 16 + b / 16), b64Char (b % 16 * 4), '=']
  | [a] => [b64Char (a / 4), b64Char (a % 4 * 16), '=', '=']
  | [] => []

/-- Embeds `base64.StdEncoding.DecodeString` on canonical padded input:
4-character quanta, `=` padding only in the final quantum; `none` models the
`CorruptInputError` failure. -/
def b64decodeStr : Str → Option (List Nat)
  | [] => some []
  | c1 :: c2 :: c3 :: c4 :: rest =>
    match b64Val c1, b64Val c2 with
    | some a, some b =>
      if c3 = '=' then
        if c4 = '=' ∧ rest = [] then some [a * 4 + b / 16] else none
      else
        match b64Val c3 with
        | some c =>
          if c4 = '=' then
            if rest = [] then some [a * 4 + b / 16, b % 16 * 16 + c / 4] else none
          else
            match b64Val c4, b64decodeStr rest with
            | some d, some tail =>
              some ((a * 4 + b / 16) :: (b % 16 * 16 + c / 4) :: (c % 4 * 64 + d) :: tail)
            | _, _ => none
        | none => none
    | _, _ => none
  | _ => none

/-- The bytes of an ASCII Go string (`[]byte(s)`): for ASCII content the
UTF-8 bytes are the code points. -/
def strBytes (s : String) : List Nat := s.data.map Char.toNat

/-! ## Rotate-request construction (Update + createEabCred) -/

/-- Embeds `terraform-plugin-framework` `basetypes.StringValue.String()`,
which renders the value with Go `%q`: for a value free of characters needing
escapes this wraps it in double quotes.  `Update` feeds the state fields
through this method when building `eabData`. -/
def tfStringRepr (s : String) : String := "\"" ++ s ++ "\""

/-- Embeds the rotate-request `b64MacKey` field construction: `Update` sets
`B64MacKey: state.HmacBase64.String()` (the quoted rendering of the stored
raw secret), then `createEabCred` re-encodes it with
`base64.StdEncoding.Strict().EncodeToString([]byte(old.B64MacKey))`. -/
def rotateB64MacKey (priorSecret : String) : Str :=
  b64encodeBytes (strBytes (tfStringRepr priorSecret))

/-! ## Response assembly (createEabCred, lines 222–235) -/

/-- The parsed JSON response `externalAccountKeyResp`. -/
structure EabResp where
  keyId : String
  name : String
  b64MacKey : String
deriving DecidableEq

/-- The assembled credential: key id, name, and the raw decoded secret
bytes stored into the state (`eab.B64MacKey = string(eabMacKey)`). -/
structure Credential where
  keyId : String
  name : String
  secret : List Nat
deriving DecidableEq

/-- Embeds the decode tail of `createEabCred` (lines 226–235): base64-decode
`b64MacKey` (failure is a terminal decode error and no credential is
produced), then assemble the state from the key id, name and raw secret
bytes.  In the program as executed this tail is reached only for a
zero-length response body, because the read of the already-closed body fails
first (see `readClosedBody`). -/
def finishEab (eab : EabResp) : Except String Credential :=
  match b64decodeStr eab.b64MacKey.data with
  | none => .error "failed to base64-decode EAB B64MacKey"
  | some bytes => .ok ⟨eab.keyId, eab.name, bytes⟩

/-- Embeds `createEabCred` after a successful retry loop (lines 214–235) as
executed, in source order: read the body that `requestFunc`'s deferred
`Close` already closed, then the non-200 check, then the JSON unmarshal
(abstracted as `parse`, with `none` modelling a `json.Unmarshal` failure),
then the base64 decode and state assembly. -/
def createEabTail (parse : String → Option EabResp) (api : String) (status : Nat)
    (body : String) : Except String Credential :=
  match readClosedBody body with
  | .error e => .error e
  | .ok b =>
    match checkStatus api status b with
    | .error e => .error e
    | .ok () =>
      match parse b with
      | none => .error "failed to unmarshal EAB response"
      | some eab => finishEab eab

/-! ## Whole-function execution of requestFunc (the deferred close) -/

/-- Termination behavior of one call of a Go function: it either panics or
returns a value. -/
inductive GoExec (α : Type) where
  | panics
  | returns (r : α)
deriving DecidableEq

/-- Embeds `requestFunc` as executed, including Go defer semantics: the
statement `defer resp.Body.Close()` evaluates the receiver `resp.Body` at the
moment the `defer` statement runs.  When the signed POST fails, `resp` is
`nil`, so that evaluation dereferences a nil pointer and the function panics
before the `err != nil` classification is reached; only a completed round
trip survives to return `nil`. -/
def requestFuncExec : AttemptOutcome → GoExec ReqResult
  | .completed _ _ => .returns .ok
  | .transportErr _ => .panics

/-! ## Helper lemmas -/

theorem splitTag_wellformed (k v : Str) (hk : ':' ∉ k) (hv : ':' ∉ v) :
    splitTag (k ++ ':' :: v) = some (k, v) := by
  unfold splitTag
  rw [splitOnChar_append ':' k v hk, splitOnChar_of_not_mem ':' v hv]

theorem insertTag_fresh (acc : TagMap) (k v : Str) (h : ∀ p ∈ acc, p.1 ≠ k) :
    insertTag acc k v = acc ++ [(k, v)] := by
  have hcond : ¬ (acc.any (fun p => p.1 == k) = true) := by
    intro hc
    obtain ⟨p, hp, hpk⟩ := List.any_eq_true.mp hc
    exact h p hp (beq_iff_eq.mp hpk)
  simp [insertTag, hcond]

theorem decode_entries_fold (m : TagMap) :
    ∀ acc : TagMap,
    (∀ p ∈ m, ':' ∉ p.1 ∧ ':' ∉ p.2) →
    (∀ p ∈ m, ∀ q ∈ acc, q.1 ≠ p.1) →
    (m.map Prod.fst).Nodup →
    (m.map (fun kv => kv.1 ++ ':' :: kv.2)).foldlM
        (fun mm tag => (splitTag tag).map (fun kv => insertTag mm kv.1 kv.2)) acc
      = some (acc ++ m) := by
  induction m with
  | nil => intro acc _ _ _; simp
  | cons p t ih =>
    intro acc hcolon hfresh hnodup
    have hp := hcolon p (List.mem_cons_self p t)
    have hins : insertTag acc p.1 p.2 = acc ++ [p] := by
      rw [insertTag_fresh acc p.1 p.2 (fun q hq => hfresh p (List.mem_cons_self p t) q hq)]
    have hnodup' : (t.map Prod.fst).Nodup := (List.nodup_cons.mp hnodup).2
    have hhead : p.1 ∉ t.map Prod.fst := (List.nodup_cons.mp hnodup).1
    have hfresh' : ∀ p' ∈ t, ∀ q ∈ acc ++ [p], q.1 ≠ p'.1 := by
      intro p' hp' q hq
      rcases List.mem_append.mp hq with hq | hq
      · exact hfresh p' (List.mem_cons_of_mem p hp') q hq
      · rcases List.mem_singleton.mp hq with rfl
        intro hkeq
        exact hhead (hkeq ▸ List.mem_map_of_mem Prod.fst hp')
    have hcolon' : ∀ p' ∈ t, ':' ∉ p'.1 ∧ ':' ∉ p'.2 :=
      fun p' hp' => hcolon p' (List.mem_cons_of_mem p hp')
    simp only [List.map_cons, List.foldlM_cons, splitTag_wellformed p.1 p.2 hp.1 hp.2,
      Option.map_some', hins, Option.bind_eq_bind, Option.some_bind]
    rw [ih (acc ++ [p]) hcolon' hfresh' hnodup']
    simp

theorem matchesName_iff (f : Filter) (name : String) :
    matchesName f name = true ↔ ∀ n, f.nameFilter = some n → name = n := by
  cases hnf : f.nameFilter with
  | none => simp [matchesName, hnf]
  | some n0 =>
    simp only [matchesName, hnf, beq_iff_eq, Option.some.injEq]
    constructor
    · intro h n hn
      exact h ▸ hn
    · intro h
      exact (h n0 rfl).symm

theorem matchesTags_iff (f : Filter) (recTags : TagMap) :
    matchesTags f recTags = true ↔
      ∀ ts, f.tagFilter = some ts → ∀ p ∈ ts, recTags.lookup p.1 = some p.2 := by
  cases htf : f.tagFilter with
  | none => simp [matchesTags, htf]
  | some ts =>
    simp only [matchesTags, htf, List.all_eq_true, Option.some.injEq]
    constructor
    · intro h ts' hts p hp
      subst hts
      have := h p hp
      cases hlk : recTags.lookup p.1 with
      | none => rw [hlk] at this; exact absurd this (by simp)
      | some v => rw [hlk] at this; exact hlk ▸ congrArg some (beq_iff_eq.mp this)
    · intro h p hp
      have := h ts rfl p hp
      rw [this]
      exact beq_iff_eq.mpr rfl

/-! ## Claim theorems -/

/-- Claim C1 is violated by the code: in rotate mode, `Update` builds the
request body from `state.HmacBase64.String()`, the *quoted* rendering of the
stored raw secret, before `createEabCred` base64-encodes it.  For the prior
secret `"old-secret"` the `b64MacKey` field therefore decodes to the twelve
bytes `"old-secret"` including the two quote characters, not to the ten raw
secret bytes. -/
theorem c1_rotate_encodes_quoted_repr :
    b64decodeStr (rotateB64MacKey "old-secret") = some (strBytes "\"old-secret\"") ∧
      strBytes "\"old-secret\"" ≠ strBytes "old-secret" :=
  ⟨by decide, by decide⟩

/-- Claim C2 as stated is false: the decoder splits each entry at *every*
`:` and keeps only the segment between the first and the second one, so the
entry `"k:v1:v2"` binds `k` to `"v1"`, not to the intact remainder
`"v1:v2"`. -/
theorem c2_counterexample :
    descTags "k:v1:v2".data = some [("k".data, "v1".data)] ∧
      ("v1".data : Str) ≠ "v1:v2".data :=
  ⟨by decide, by decide⟩

/-- Claim C2 amended: for an entry whose key contains no `:`, decoding a
one-entry description binds the key to the value's prefix up to the value's
own first `:` — the text between the entry's first and second `:`; anything
later is dropped. -/
theorem c2_amended_value_truncated_at_second_colon (k v : Str)
    (hk : ':' ∉ k) (hk' : '|' ∉ k) (hv : '|' ∉ v) :
    descTags (k ++ ':' :: v) = some [(k, v.takeWhile (fun c => c != ':'))] := by
  have hmem : '|' ∉ k ++ ':' :: v := by
    intro hm
    rcases List.mem_append.mp hm with h | h
    · exact hk' h
    · rcases List.mem_cons.mp h with h | h
      · exact absurd h (by decide)
      · exact hv h
  have hne : k ++ ':' :: v ≠ [] := by simp
  obtain ⟨t, ht⟩ := splitOnChar_head ':' v
  unfold descTags
  rw [if_neg hne]
  unfold decodeTags
  rw [splitOnChar_of_not_mem '|' _ hmem]
  have hsplit : splitTag (k ++ ':' :: v) = some (k, v.takeWhile (fun c => c != ':')) := by
    unfold splitTag
    rw [splitOnChar_append ':' k v hk, ht]
  have hins : insertTag [] k (v.takeWhile (fun c => c != ':')) =
      [(k, v.takeWhile (fun c => c != ':'))] := by
    simp [insertTag]
  simp [List.foldlM, hsplit, hins]

/-- Witness for the amended C2 at the concrete entry `"k:v1:v2"`. -/
theorem c2_amended_value_truncated_at_second_colon_witness :
    descTags ("k".data ++ ':' :: "v1:v2".data) =
      some [("k".data, "v1:v2".data.takeWhile (fun c => c != ':'))] :=
  c2_amended_value_truncated_at_second_colon "k".data "v1:v2".data
    (by decide) (by decide) (by decide)

/-- Claim C3: the code panics instead of failing with a `FormatError` — on a
description containing an entry with no `:` the decoder indexes `t[1]` out of
range (modelled `none`); the empty description does decode to the empty tag
map. -/
theorem c3_no_colon_entry_panics :
    descTags "Env:Prod|Team".data = none ∧ descTags "".data = some ([] : TagMap) :=
  ⟨by decide, by decide⟩

/-- Claim C4: round-trip identity of the tag codec — for a tag map with
unique keys whose keys and values contain neither `|` nor `:`, decoding the
encoded description recovers exactly the map. -/
theorem c4_decode_encode_roundtrip (m : TagMap)
    (hnodup : (m.map Prod.fst).Nodup)
    (hfree : ∀ p ∈ m, '|' ∉ p.1 ∧ ':' ∉ p.1 ∧ '|' ∉ p.2 ∧ ':' ∉ p.2) :
    descTags (encodeTags m) = some m := by
  cases m with
  | nil => rfl
  | cons p t =>
    have hne : encodeTags (p :: t) ≠ [] := by
      cases t <;> simp [encodeTags, joinChar]
    have hentries : ∀ e ∈ (p :: t).map (fun kv => kv.1 ++ ':' :: kv.2), '|' ∉ e := by
      intro e he
      obtain ⟨q, hq, rfl⟩ := List.mem_map.mp he
      obtain ⟨h1, _, h3, _⟩ := hfree q hq
      intro hm
      rcases List.mem_append.mp hm with hm | hm
      · exact h1 hm
      · rcases List.mem_cons.mp hm with hm | hm
        · exact absurd hm (by decide)
        · exact h3 hm
    unfold descTags
    rw [if_neg hne]
    unfold decodeTags encodeTags
    rw [splitOnChar_joinChar '|' _ (by simp) hentries]
    have := decode_entries_fold (p :: t) []
      (fun q hq => ⟨(hfree q hq).2.1, (hfree q hq).2.2.2⟩)
      (fun q _ r hr => absurd hr (List.not_mem_nil r))
      hnodup
    rw [this]
    simp

/-- Witness for C4 at the concrete map `{Env ↦ Prod, Team ↦ Core}`. -/
theorem c4_decode_encode_roundtrip_witness :
    descTags (encodeTags [("Env".data, "Prod".data), ("Team".data, "Core".data)]) =
      some [("Env".data, "Prod".data), ("Team".data, "Core".data)] :=
  c4_decode_encode_roundtrip [("Env".data, "Prod".data), ("Team".data, "Core".data)]
    (by decide) (by decide)

/-- Claim C5: an error is classified retryable iff its message contains one
of the literal substrings `"timeout"`, `" 500 "`, `" 504 "`, `"DNS"`; and the
retry loop re-attempts after every retryable-classified error but stops at
the very first permanent-classified one (attempt count `pre.length + 1`, the
remaining trace never examined). -/
theorem c5_classifier_and_retry_policy :
    (∀ msg : String, isRetryable msg = true ↔
      ("timeout".data <:+: msg.data ∨ " 500 ".data <:+: msg.data ∨
        " 504 ".data <:+: msg.data ∨ "DNS".data <:+: msg.data)) ∧
    (∀ (pre : List String) (m : String) (rest : List ReqResult),
      (∀ s ∈ pre, isRetryable s = true) → isRetryable m = false →
      retryRun (pre.map classifyTransportErr ++ classifyTransportErr m :: rest) =
        (pre.length + 1, some (.error m))) := by
  constructor
  · intro msg
    simp [isRetryable, hasSubstr_iff_infix, or_assoc]
  · intro pre
    induction pre with
    | nil =>
      intro m rest _ hm
      simp [classifyTransportErr, hm, retryRun]
    | cons s t ih =>
      intro m rest hpre hm
      have hs : isRetryable s = true := hpre s (List.mem_cons_self s t)
      have ht : ∀ x ∈ t, isRetryable x = true :=
        fun x hx => hpre x (List.mem_cons_of_mem s hx)
      simp only [List.map_cons, List.cons_append, classifyTransportErr, hs, if_true,
        retryRun]
      rw [show (t.map classifyTransportErr ++
          (if isRetryable m then ReqResult.retryableErr m else .permanentErr m) :: rest)
          = t.map classifyTransportErr ++ classifyTransportErr m :: rest from by
        simp [classifyTransportErr]]
      rw [ih m rest ht hm]
      simp [Nat.add_comm]

/-- Witness for C5: one retryable attempt (`"connection timeout"`) followed
by a permanent error (`"invalid grant"`) makes exactly two attempts and
returns the permanent error. -/
theorem c5_classifier_and_retry_policy_witness :
    retryRun (["connection timeout"].map classifyTransportErr ++
        classifyTransportErr "invalid grant" :: []) =
      (2, some (.error "invalid grant")) :=
  c5_classifier_and_retry_policy.2 ["connection timeout"] "invalid grant" []
    (by decide) (by decide)

/-- Claim C6 is violated by the code: `requestFunc`'s deferred
`resp.Body.Close()` runs when each attempt returns, so after the retry loop
the body is already closed and `io.ReadAll` at line 214 fails for every
non-empty body.  `createEabCred` then returns the read error — the non-200
branch of line 219 never runs — and at the failing input (status 500, body
`"boom"`) the returned message contains neither the requested URL nor the
body, and differs from the URL+body message the claim promises.  The
terminal-no-retry half of the claim does hold: the loop counts the completed
round trip as success after one attempt. -/
theorem c6_read_after_close_preempts_response_error :
    (∀ (parse : String → Option EabResp) (api : String) (status : Nat) (body : String),
      body ≠ "" → createEabTail parse api status body = .error readClosedErrMsg) ∧
    retryRun [requestFuncClassified (.completed 500 "boom")] = (1, some (.ok ())) ∧
    ¬ (eabEndpoint "p").data <:+: readClosedErrMsg.data ∧
    ¬ "boom".data <:+: readClosedErrMsg.data ∧
    readClosedErrMsg ≠ respErrorMsg (eabEndpoint "p") "boom" := by
  refine ⟨?_, rfl, ?_, ?_, by decide⟩
  · intro parse api status body h
    simp [createEabTail, readClosedBody, h]
  · rw [← hasSubstr_iff_infix]
    decide
  · rw [← hasSubstr_iff_infix]
    decide

/-- Witness for C6: at status 500 with body `"boom"` the executed tail
returns the read-after-close error, not the URL+body response error. -/
theorem c6_read_after_close_preempts_response_error_witness :
    createEabTail (fun _ => none) (eabEndpoint "p") 500 "boom" =
      .error readClosedErrMsg :=
  c6_read_after_close_preempts_response_error.1 (fun _ => none) (eabEndpoint "p")
    500 "boom" (by decide)

/-- Claim C7 is violated by the code: the claim's success scenario is a 200
response whose JSON body is non-empty, but `requestFunc`'s deferred `Close`
already closed the body, so the read at line 214 fails before the unmarshal
or the base64 decode ever run — no credential and no decode error is
produced for any non-empty body.  The decode tail of lines 222–235
(`finishEab`) would produce the claimed credential from the parsed fields,
but is dead code for such bodies: the last conjunct shows the intended
result for contrast. -/
theorem c7_read_after_close_preempts_decode :
    (∀ (parse : String → Option EabResp) (api body : String) (cred : Credential),
      body ≠ "" → createEabTail parse api 200 body ≠ .ok cred) ∧
    createEabTail (fun _ => some ⟨"k1", "n1", "aGVsbG8="⟩) (eabEndpoint "p") 200
        "\x7b\"keyId\":\"k1\",\"name\":\"n1\",\"b64MacKey\":\"aGVsbG8=\"\x7d" =
      .error readClosedErrMsg ∧
    finishEab ⟨"k1", "n1", "aGVsbG8="⟩ = .ok ⟨"k1", "n1", strBytes "hello"⟩ := by
  refine ⟨?_, rfl, ?_⟩
  · intro parse api body cred h
    simp [createEabTail, readClosedBody, h]
  · have h : b64decodeStr ("aGVsbG8=" : String).data = some (strBytes "hello") := by decide
    simp [finishEab, h]

/-- Witness for C7: the scenario's 200 response never yields the promised
credential. -/
theorem c7_read_after_close_preempts_decode_witness :
    createEabTail (fun _ => some ⟨"k1", "n1", "aGVsbG8="⟩) (eabEndpoint "p") 200
        "\x7b\"keyId\":\"k1\",\"name\":\"n1\",\"b64MacKey\":\"aGVsbG8=\"\x7d" ≠
      .ok ⟨"k1", "n1", strBytes "hello"⟩ :=
  c7_read_after_close_preempts_decode.1 (fun _ => some ⟨"k1", "n1", "aGVsbG8="⟩)
    (eabEndpoint "p")
    "\x7b\"keyId\":\"k1\",\"name\":\"n1\",\"b64MacKey\":\"aGVsbG8=\"\x7d"
    ⟨"k1", "n1", strBytes "hello"⟩ (by decide)

/-- Claim C8: the record-level match decision holds iff the name constraint
(absent, or exactly equal) and the tag constraint (absent, or every filter
key bound in the record's tags to an equal value) both hold; in particular a
present-but-empty filter tag map matches every record. -/
theorem c8_matches_iff :
    (∀ (f : Filter) (name : String) (recTags : TagMap),
      matchesFilter f name recTags = true ↔
        ((∀ n, f.nameFilter = some n → name = n) ∧
         (∀ ts, f.tagFilter = some ts → ∀ p ∈ ts, recTags.lookup p.1 = some p.2))) ∧
    (∀ (name : String) (recTags : TagMap),
      matchesFilter ⟨none, some []⟩ name recTags = true) := by
  constructor
  · intro f name recTags
    rw [matchesFilter, Bool.and_eq_true, matchesName_iff, matchesTags_iff]
  · intro name recTags
    rfl

/-- Witness for C8: the empty (present, zero-entry) tag filter matches a
record with no decoded tags. -/
theorem c8_matches_iff_witness :
    matchesFilter ⟨none, some []⟩ "svc" ([] : TagMap) = true :=
  c8_matches_iff.2 "svc" []

theorem processService_batch (f : Filter) (page : List BackendService) :
    ∀ acc : List ServiceItem,
    (∀ svc ∈ page, (descTags svc.description).isSome) →
    page.foldlM (processService f) acc =
      some (acc ++ (page.filter (svcMatches f)).map svcItem) := by
  induction page with
  | nil => intro acc _; simp
  | cons svc t ih =>
    intro acc h
    obtain ⟨tags, htags⟩ :=
      Option.isSome_iff_exists.mp (h svc (List.mem_cons_self svc t))
    have ht : ∀ s ∈ t, (descTags s.description).isSome :=
      fun s hs => h s (List.mem_cons_of_mem svc hs)
    have hsm : svcMatches f svc = matchesFilter f svc.name tags := by
      simp [svcMatches, htags]
    have hsi : svcItem svc = ⟨svc.id, tags⟩ := by
      simp [svcItem, htags]
    have hstep : processService f acc svc =
        some (acc ++ if svcMatches f svc then [svcItem svc] else []) := by
      rw [processService, htags, hsm, hsi]
      by_cases hm : matchesFilter f svc.name tags
      · simp [hm]
      · simp [hm]
    simp only [List.foldlM_cons, hstep, Option.bind_eq_bind, Option.some_bind]
    rw [ih _ ht]
    by_cases hm : svcMatches f svc = true
    · simp [hm, List.filter_cons, List.append_assoc]
    · simp [hm, List.filter_cons]

/-- Claim C9: whenever every record's description decodes, the paged scan
visits every record of every page and returns exactly the matching records,
mapped to items, in encounter order — the order-preserving filtered
subsequence of the concatenation of all pages. -/
theorem c9_scan_is_ordered_filter (f : Filter) (pages : List (List BackendService))
    (h : ∀ svc ∈ pages.flatten, (descTags svc.description).isSome) :
    scanPages f pages = some ((pages.flatten.filter (svcMatches f)).map svcItem) := by
  have aux : ∀ (ps : List (List BackendService)) (acc : List ServiceItem),
      (∀ svc ∈ ps.flatten, (descTags svc.description).isSome) →
      ps.foldlM (fun acc page => page.foldlM (processService f) acc) acc =
        some (acc ++ (ps.flatten.filter (svcMatches f)).map svcItem) := by
    intro ps
    induction ps with
    | nil => intro acc _; simp
    | cons page t ih =>
      intro acc hh
      have hpage : ∀ svc ∈ page, (descTags svc.description).isSome :=
        fun svc hs => hh svc (List.mem_flatten.mpr ⟨page, List.mem_cons_self page t, hs⟩)
      have htail : ∀ svc ∈ t.flatten, (descTags svc.description).isSome := by
        intro svc hs
        obtain ⟨l, hl, hsl⟩ := List.mem_flatten.mp hs
        exact hh svc (List.mem_flatten.mpr ⟨l, List.mem_cons_of_mem page hl, hsl⟩)
      simp only [List.foldlM_cons, processService_batch f page acc hpage,
        Option.bind_eq_bind, Option.some_bind]
      rw [ih _ htail]
      simp [List.flatten_cons, List.filter_append, List.append_assoc]
  have := aux pages [] h
  rw [scanPages, this]
  simp

/-- Witness for C9: one page holding a record with no description and a
record with description `"A:1"`, filtered with the empty (present,
zero-entry) tag filter, returns both items in order. -/
theorem c9_scan_is_ordered_filter_witness :
    scanPages ⟨none, some []⟩
        [[⟨1, "svc-a", "".data⟩, ⟨2, "svc-b", "A:1".data⟩]] =
      some [⟨1, []⟩, ⟨2, [("A".data, "1".data)]⟩] := by
  rw [c9_scan_is_ordered_filter ⟨none, some []⟩
    [[⟨1, "svc-a", "".data⟩, ⟨2, "svc-b", "A:1".data⟩]] (by decide)]
  decide

/-- Claim C10 is violated by the code: `requestFunc` places
`defer resp.Body.Close()` before the `err != nil` check, and Go evaluates the
deferred call's receiver at the `defer` statement; after a failed POST `resp`
is nil, so every transport error panics with a nil-pointer dereference
instead of returning the classified error to the retry loop. -/
theorem c10_transport_error_panics (msg : String) :
    requestFuncExec (.transportErr msg) = .panics ∧
      ∀ r : ReqResult, requestFuncExec (.transportErr msg) ≠ .returns r := by
  refine ⟨rfl, ?_⟩
  intro r h
  exact GoExec.noConfusion h

/-- Witness for C10 at a concrete transport error. -/
theorem c10_transport_error_panics_witness :
    requestFuncExec (.transportErr "dial tcp: lookup publicca.googleapis.com: DNS error") =
      .panics :=
  (c10_transport_error_panics "dial tcp: lookup publicca.googleapis.com: DNS error").1

end StGcp
